import Mathlib

/-!
Verification of the execution engine of the spotify_project repository.

The development shallowly embeds the two cores described in the design:

* the generate / execute / refine retry automaton of the data resolver
  (`src/llm/agents/graph_rag.py`, class `GraphRAGAgent`);
* the step scheduler, context builder and error substitution of the
  orchestrator (`src/llm/orchestrator.py`, class `Orchestrator`);
* the follow-up planning loop of the action resolver
  (`src/llm/agents/spotify.py`, class `SpotifyAgent`).

External collaborators (the LLM generator, the Neo4j driver, the Spotify
client, `json.dumps`) are modelled as components of an environment record;
everything the repository's own code does with their outputs is translated
directly from the source.  Data records, which the source types as
`List[Any]`, are a type parameter `α`.
-/

namespace SpotifyProject

/-! ## Data model (src/llm/schemas/state_schemas.py) -/

/-- RouteType = Literal["graph_rag", "spotify"]. -/
inductive Route where
  | graph_rag
  | spotify
deriving DecidableEq

/-- QueryResult: result from a Graph RAG or Spotify agent query. -/
structure QueryResult (α : Type) where
  success : Bool
  data : List α
  interpretation : String
  cypher_used : Option String
deriving DecidableEq

/-- ExecutionStep: a single step in the execution plan. -/
structure ExecutionStep where
  step : Nat
  query : String
  route : Route
  depends_on : Option Nat
  context_needed : Option String
deriving DecidableEq

/-- StepResult: result from a single execution step. -/
structure StepResult (α : Type) where
  step : Nat
  query : String
  route : Route
  result : QueryResult α
  context_used : Option String
deriving DecidableEq

/-- Python truthiness of an optional string: `None` and `""` are falsy.
The source guards several branches with bare `if error` / `or` tests. -/
def truthyStr : Option String → Bool
  | none => false
  | some s => s != ""

/-! ## Graph RAG agent (src/llm/agents/graph_rag.py)

The LangGraph state of the agent.  Node functions return partial updates
that LangGraph merges into the state; we translate each node as a function
from state to state updating exactly the keys the source returns. -/

/-- GraphRAGState of the LangGraph graph (schemas/state_schemas.py). -/
structure GraphRAGState (α : Type) where
  query : String
  context : Option String
  cypher_query : String
  query_explanation : String
  return_type : String
  raw_results : List α
  interpreted_response : String
  error : Option String
  retry_count : Nat
  result : Option (QueryResult α)
deriving DecidableEq

/-- Parsed generator output: the JSON object with keys `cypher`,
`explanation`, `return_type` (absent keys default to `""` via `.get`). -/
structure GenOut where
  cypher : String
  explanation : String
  return_type : String
deriving DecidableEq

/-- Environment of one GraphRAGAgent invocation: the external LLM calls
(each routed through `parse_json_response`, so an `Except.error` carries the
unparseable response text), the Neo4j execution (indexed by a running count
of `session.run` calls so that distinct attempts may behave differently),
the interpretation LLM call, and `json.dumps(·, indent=2, default=str)`. -/
structure RagEnv (α : Type) where
  gen : Except String GenOut
  refine : Nat → Except String GenOut
  exec : Nat → String → Except String (List α)
  interpret : String → String
  dumps : List α → String

/-- Node `_generate_cypher`: on parse success updates the three query keys;
on `json.JSONDecodeError` sets `cypher_query` to `""`, records the error
(with the response text truncated to 200 characters) and bumps the retry
counter. -/
def generate_cypher (env : RagEnv α) (st : GraphRAGState α) : GraphRAGState α :=
  match env.gen with
  | .ok r =>
      { st with cypher_query := r.cypher, query_explanation := r.explanation,
                return_type := r.return_type }
  | .error response_text =>
      { st with cypher_query := "",
                error := some ("Failed to parse Cypher generation response: "
                  ++ response_text.take 200),
                retry_count := st.retry_count + 1 }

/-- Node `_execute_query`: with an empty Cypher string it does not touch the
backing system and keeps (or defaults) the error; otherwise it runs the query,
capturing raised errors.  `callNo` counts `session.run` calls so far. -/
def execute_query (env : RagEnv α) (st : GraphRAGState α) (callNo : Nat) :
    GraphRAGState α × Nat :=
  if st.cypher_query = "" then
    ({ st with raw_results := [],
               error := some (match st.error with
                 | some e => if e = "" then "No Cypher query generated" else e
                 | none => "No Cypher query generated") }, callNo)
  else
    match env.exec callNo st.cypher_query with
    | .ok records => ({ st with raw_results := records, error := none }, callNo + 1)
    | .error e => ({ st with raw_results := [], error := some e }, callNo + 1)

/-- Modelled from the spec: the template constant `RESULT_INTERPRETATION_PROMPT`
is imported by `graph_rag.py` from `graph_rag_prompts.py`, but that module as
shipped under src does not define it (only the analogous Spotify template in
`mcp_prompts.py` is present).  Per the spec the interpreter is an external
call that derives a summary from the request, the final artifact and the
rendered result block, so the `.format(query=..., cypher=..., results=...)`
call is modelled as a fixed interpolation of those three fields. -/
def RESULT_INTERPRETATION_PROMPT_format (query cypher results : String) : String :=
  "You are interpreting Neo4j query results for a Spotify listening history question.\n"
    ++ "Question: " ++ query ++ "\nCypher: " ++ cypher ++ "\nResults:\n" ++ results

/-- Python `str.strip()`: drop whitespace from both ends (an executable
model of `String.trim`). -/
def pyStrip (s : String) : String :=
  ⟨((s.data.dropWhile Char.isWhitespace).reverse.dropWhile Char.isWhitespace).reverse⟩

/-- Node `_interpret_results`: renders the raw results (`"No results found."`
for an empty list, a 20-item truncation with an explicit marker for large
lists), asks the LLM for an interpretation, and unconditionally builds a
successful QueryResult. -/
def interpret_results (env : RagEnv α) (st : GraphRAGState α) : GraphRAGState α :=
  let results := st.raw_results
  let results_str :=
    if results.isEmpty then "No results found."
    else if results.length > 20 then
      env.dumps (results.take 20) ++ "\n... and "
        ++ toString (results.length - 20) ++ " more results"
    else env.dumps results
  let prompt := RESULT_INTERPRETATION_PROMPT_format st.query st.cypher_query results_str
  let response_text := pyStrip (env.interpret prompt)
  { st with interpreted_response := response_text,
            result := some ⟨true, results, response_text, some st.cypher_query⟩ }

/-- Node `_refine_query`: asks the generator for a corrected artifact; both
branches bump `retry_count`, the success branch clears the error. -/
def refine_query (env : RagEnv α) (st : GraphRAGState α) : GraphRAGState α :=
  match env.refine st.retry_count with
  | .ok r =>
      { st with cypher_query := r.cypher, query_explanation := r.explanation,
                return_type := r.return_type, retry_count := st.retry_count + 1,
                error := none }
  | .error response_text =>
      { st with error := some ("Failed to refine query: " ++ response_text.take 200),
                retry_count := st.retry_count + 1 }

/-- Conditional edge `_should_refine`: refine only when an error is present
(Python truthiness) and the retry limit of 2 has not been reached. -/
def should_refine (st : GraphRAGState α) : String :=
  if truthyStr st.error && decide (st.retry_count < 2) then "refine" else "interpret"

/-- Loop `execute_query → _should_refine → refine_query → execute_query …`
of the compiled LangGraph (edges added in `_build_graph`).  Terminates
because every pass through `refine_query` increments `retry_count`, which
`_should_refine` bounds by 2. -/
def execute_refine_loop (env : RagEnv α) (st : GraphRAGState α) (callNo : Nat) :
    GraphRAGState α × Nat :=
  let p := execute_query env st callNo
  if h : should_refine p.1 = "refine" then
    execute_refine_loop env (refine_query env p.1) p.2
  else p
termination_by 2 - st.retry_count
decreasing_by
  have h2 : (execute_query env st callNo).1.retry_count = st.retry_count := by
    unfold execute_query
    split
    · rfl
    · cases env.exec callNo st.cypher_query <;> rfl
  have h3 : (refine_query env (execute_query env st callNo).1).retry_count
      = (execute_query env st callNo).1.retry_count + 1 := by
    unfold refine_query
    cases env.refine (execute_query env st callNo).1.retry_count <;> rfl
  have h4 : (execute_query env st callNo).1.retry_count < 2 := by
    by_contra hc
    unfold should_refine at h
    rw [if_neg] at h
    · exact absurd h (by decide)
    · simp only [Bool.and_eq_true, decide_eq_true_eq]
      intro hand
      exact hc hand.2
  omega

/-- Invocation `self.graph.invoke(initial_state)` with the initial state
built in `GraphRAGAgent.query`; the second component counts the
`session.run` calls made against the backing system. -/
def graph_invoke (env : RagEnv α) (query : String) (context : Option String) :
    GraphRAGState α × Nat :=
  let initial_state : GraphRAGState α :=
    ⟨query, context, "", "", "", [], "", none, 0, none⟩
  let st1 := generate_cypher env initial_state
  let p := execute_refine_loop env st1 0
  (interpret_results env p.1, p.2)

/-- Method `GraphRAGAgent.query`: returns the state's result, or constructs
an error result when no result was set (`final_state.get("error") or
"Query failed"` uses Python truthiness). -/
def GraphRAGAgent.query (env : RagEnv α) (q : String) (context : Option String) :
    QueryResult α :=
  let final_state := (graph_invoke env q context).1
  match final_state.result with
  | some r => r
  | none =>
      ⟨false, [],
       (match final_state.error with
        | some e => if e = "" then "Query failed" else e
        | none => "Query failed"),
       some final_state.cypher_query⟩

/-! ## Orchestrator (src/llm/orchestrator.py)

Steps are submitted to a thread pool; each step's unit of work blocks only
on its own dependency's Future, snapshots the completed-results dict under a
lock, runs its agent, and publishes its StepResult under the lock.  The
interleaving of threads is modelled by a schedule: a list of thread indices,
each entry letting that thread perform its next atomic transition (acquire
the resolved dependency Future / take the snapshot and start the agent call /
publish the agent's outcome).  The collection loop then reads every Future,
substituting synthetic failed StepResults for raised exceptions, and sorts
by step index. -/

/-- Environment of one plan execution: the dispatch of
`_execute_single_step` to `self.graph_rag.query` or `self.spotify.query`
(an `Except.error` models an unexpected exception raised by the agent, with
its `str(e)` text), and `json.dumps(·, indent=2, default=str)`. -/
structure SchedEnv (α : Type) where
  runAgent : Route → String → Option String → Except String (QueryResult α)
  dumps : List α → String

/-- Lookup in the `completed_results` dict, modelled as an insertion list
with the newest binding first (dict overwrite semantics). -/
def lookupResult (completed : List (Nat × StepResult α)) (k : Nat) :
    Option (StepResult α) :=
  (completed.find? (fun p => p.1 == k)).map (·.2)

/-- Method `Orchestrator._get_context_for_step`: builds the dependent step's
context string from the dependency's published StepResult. -/
def getContextForStep (dumps : List α → String) (step : ExecutionStep)
    (completed_results : List (Nat × StepResult α)) : Option String :=
  match step.depends_on with
  | none => none
  | some depends_on =>
    match lookupResult completed_results depends_on with
    | some result =>
        let interpretation := result.result.interpretation
        let data := result.result.data
        let context_parts := ["Previous result: " ++ interpretation]
        let context_parts :=
          if data.isEmpty then context_parts
          else
            context_parts ++
              ["Data (" ++ toString data.length ++ " total items):",
               dumps (data.take 10)]
        some (String.intercalate "\n" context_parts)
    | none => none

/-- Method `Orchestrator._execute_single_step`: builds the context, runs the
routed agent, and wraps the outcome in a StepResult; an exception raised by
the agent propagates (as the `Except.error`). -/
def executeSingleStep (env : SchedEnv α) (step : ExecutionStep)
    (completed_results : List (Nat × StepResult α)) : Except String (StepResult α) :=
  let context := getContextForStep env.dumps step completed_results
  match env.runAgent step.route step.query context with
  | .ok result => .ok ⟨step.step, step.query, step.route, result, context⟩
  | .error e => .error e

/-- Progress of one step's unit of work (`run_step` in
`_execute_plan_parallel`): before `df.result()` returned; unblocked;
snapshot taken and agent call in flight; Future resolved with a value;
Future resolved with a raised exception. -/
inductive Phase (α : Type) where
  | waiting
  | ready
  | running (snap : List (Nat × StepResult α))
  | done (r : StepResult α)
  | failed (e : String)
deriving DecidableEq

/-- Observable events of a run: a thread starting its resolver call, and a
thread's Future resolving (by value or by exception). -/
inductive Event where
  | invoke (i : Nat)
  | complete (i : Nat)
deriving DecidableEq

/-- Shared state of `_execute_plan_parallel`: the per-thread progress, the
lock-guarded `completed_results` dict (newest binding first), and the event
trace (a proof artifact recording invocation and completion order). -/
structure SchedState (α : Type) where
  phases : List (Phase α)
  completed : List (Nat × StepResult α)
  trace : List Event
deriving DecidableEq

/-- Lookup `step_futures.get(d)` at submission time of thread `upto`: the
dict holds one Future per already-submitted step, keyed by its `step` field,
with later insertions overwriting earlier ones. -/
def futureOf (plan : List ExecutionStep) (upto : Nat) (d : Nat) : Option Nat :=
  match upto with
  | 0 => none
  | u + 1 =>
    match plan[u]? with
    | some s => if s.step = d then some u else futureOf plan u d
    | none => futureOf plan u d

/-- Phase of a resolved Future (`done` or `failed`). -/
def Phase.isTerminal : Phase α → Bool
  | .done _ => true
  | .failed _ => true
  | _ => false

def setPhase (st : SchedState α) (t : Nat) (ph : Phase α) : SchedState α :=
  { st with phases := st.phases.set t ph }

/-- One atomic transition of thread `t`, mirroring `run_step`:

* `waiting`: `df.result()` — with no dependency Future the thread proceeds;
  with one it blocks until the dependency's Future resolves, re-raising the
  dependency's exception if it failed;
* `ready`: take the snapshot of `completed_results` under the lock and enter
  the agent call (`_execute_single_step`);
* `running`: the agent call returns — publish the StepResult under the lock,
  or let the raised exception fail this thread's Future. -/
def stepThread (env : SchedEnv α) (plan : List ExecutionStep)
    (st : SchedState α) (t : Nat) : SchedState α :=
  match plan[t]?, st.phases[t]? with
  | some s, some ph =>
    match ph with
    | .waiting =>
      match s.depends_on with
      | none => setPhase st t .ready
      | some d =>
        match futureOf plan t d with
        | none => setPhase st t .ready
        | some j =>
          match st.phases[j]? with
          | some (.done _) => setPhase st t .ready
          | some (.failed e) =>
              { setPhase st t (.failed e) with trace := st.trace ++ [.complete t] }
          | _ => st
    | .ready =>
        { setPhase st t (.running st.completed) with trace := st.trace ++ [.invoke t] }
    | .running snap =>
      match executeSingleStep env s snap with
      | .ok r =>
          { phases := st.phases.set t (.done r),
            completed := (s.step, r) :: st.completed,
            trace := st.trace ++ [.complete t] }
      | .error e =>
          { phases := st.phases.set t (.failed e),
            completed := st.completed,
            trace := st.trace ++ [.complete t] }
    | .done _ => st
    | .failed _ => st
  | _, _ => st

/-- State before any thread has run. -/
def initState (plan : List ExecutionStep) : SchedState α :=
  ⟨List.replicate plan.length .waiting, [], []⟩

/-- Run the submitted threads under a given interleaving. -/
def runSched (env : SchedEnv α) (plan : List ExecutionStep) (sched : List Nat) :
    SchedState α :=
  sched.foldl (stepThread env plan) (initState plan)

/-- Every Future has resolved (the collection loop in the source blocks
until this holds). -/
def allDone (st : SchedState α) : Bool :=
  st.phases.all Phase.isTerminal

/-- Synthetic StepResult substituted by the collection loop's `except`
branch for a step whose Future raised. -/
def syntheticResult (step : ExecutionStep) (e : String) : StepResult α :=
  ⟨step.step, step.query, step.route, ⟨false, [], "Error: " ++ e, none⟩, none⟩

/-- Collection loop: for each plan step, read `step_futures[step["step"]]`;
a raised exception is converted to a synthetic failed StepResult.  The two
fallback branches are unreachable: every step id is registered at
submission, and under `allDone` every Future has resolved (in the source,
`Future.result()` would block until then). -/
def collectResults (plan : List ExecutionStep) (st : SchedState α) :
    List (StepResult α) :=
  plan.map fun s =>
    match futureOf plan plan.length s.step with
    | some j =>
      match st.phases[j]? with
      | some (.done r) => r
      | some (.failed e) => syntheticResult s e
      | _ => syntheticResult s "pending future"
    | none => syntheticResult s "KeyError"

/-- Ordering used by `all_results.sort(key=lambda r: r["step"])`. -/
def stepLe (a b : StepResult α) : Prop := a.step ≤ b.step

instance : DecidableRel (@stepLe α) := fun a b => Nat.decLe a.step b.step

instance : IsTotal (StepResult α) stepLe := ⟨fun a b => Nat.le_total a.step b.step⟩

instance : IsTrans (StepResult α) stepLe := ⟨fun _ _ _ => Nat.le_trans⟩

/-- Method `Orchestrator._execute_plan_parallel` under a given interleaving:
run all units of work, collect one StepResult per step, and sort by step
index (`list.sort` is a stable comparison sort; any comparison sort on the
step key gives the same contract here). -/
def executePlanParallel (env : SchedEnv α) (plan : List ExecutionStep)
    (sched : List Nat) : List (StepResult α) :=
  List.insertionSort stepLe (collectResults plan (runSched env plan sched))

/-! ## Spotify agent follow-up planning loop (src/llm/agents/spotify.py)

Step 3 of `SpotifyAgent.query`: when the initial batch only ran searches and
the deterministic follow-up produced nothing, the agent repeatedly asks the
LLM for the next single tool call and executes it, up to `max_followups`
iterations. -/

/-- ToolCall (schemas/state_schemas.py); the `arguments` dict is modelled as
an association list. -/
structure ToolCall where
  name : String
  arguments : List (String × String)
  reason : Option String
deriving DecidableEq

/-- Result dict built by `SpotifyAgent._execute_tool`. -/
structure ToolRes where
  tool : String
  arguments : List (String × String)
  result : String
  success : Bool
deriving DecidableEq

/-- Parsed JSON of one `_plan_next_tool` LLM response: keys `is_final`,
`tool` (with `name` and `arguments`) and `explanation`, all read with
`.get`. -/
structure PlanOut where
  is_final : Bool
  tool_name : Option String
  tool_args : List (String × String)
  explanation : Option String
deriving DecidableEq

/-- Environment of the loop: the planning LLM call (routed through
`parse_json_response`; an `Except.error` carries the unparseable response
text) as a function of the accumulated tool results, and `_call_tool`
(an `Except.error` models a raised exception, with its `str(e)` text). -/
structure SpotEnv where
  planNext : List ToolRes → Except String PlanOut
  callTool : ToolCall → Except String String

/-- Method `SpotifyAgent._plan_next_tool`: returns `(next tool or None,
error message)`; `None` when the generator signals `is_final`, names the
tool `"none"`, or its output fails to parse. -/
def plan_next_tool (env : SpotEnv) (tool_results : List ToolRes) :
    Option ToolCall × Option String :=
  match env.planNext tool_results with
  | .ok result =>
      if result.is_final || result.tool_name == some "none" then (none, none)
      else (some ⟨result.tool_name.getD "", result.tool_args, result.explanation⟩,
            none)
  | .error response_text =>
      (none, some ("Failed to plan next tool: " ++ response_text.take 200))

/-- Method `SpotifyAgent._execute_tool`: every raised exception is caught
and recorded as a failed result dict. -/
def execute_tool (env : SpotEnv) (tool : ToolCall) : ToolRes :=
  match env.callTool tool with
  | .ok result => ⟨tool.name, tool.arguments, result, true⟩
  | .error e => ⟨tool.name, tool.arguments, e, false⟩

/-- Safety cap of the follow-up loop (`max_followups = 10`). -/
def max_followups : Nat := 10

/-- The `for _ in range(max_followups)` loop: ask for the next tool, break
if `None`, otherwise execute it and append the (possibly failed) result. -/
def followupLoop (env : SpotEnv) (tool_results : List ToolRes) :
    Nat → List ToolRes
  | 0 => tool_results
  | fuel + 1 =>
    match (plan_next_tool env tool_results).1 with
    | none => tool_results
    | some next_tool =>
        followupLoop env (tool_results ++ [execute_tool env next_tool]) fuel

/-- The loop as entered by `SpotifyAgent.query` step 3. -/
def runFollowups (env : SpotEnv) (tool_results : List ToolRes) : List ToolRes :=
  followupLoop env tool_results max_followups

/-! ## Invariant predicates used in the scheduler proofs -/

/-- Invariant: every resolved-by-value Future belongs to its plan step and
carries that step's index, request and route. -/
def PhasesOk (plan : List ExecutionStep) (phs : List (Phase α)) : Prop :=
  ∀ (j : Nat) (r : StepResult α), phs[j]? = some (Phase.done r) →
    ∃ s : ExecutionStep,
      plan[j]? = some s ∧ r.step = s.step ∧ r.query = s.query ∧ r.route = s.route

/-- Every resolved Future has its completion event in the trace. -/
def TraceComplete (st : SchedState α) : Prop :=
  ∀ (j : Nat) (ph : Phase α), st.phases[j]? = some ph → ph.isTerminal = true →
    Event.complete j ∈ st.trace

/-- Any step past its dependency wait has a resolved dependency Future. -/
def DepGate (plan : List ExecutionStep) (st : SchedState α) : Prop :=
  ∀ (i : Nat) (s : ExecutionStep) (d j : Nat), plan[i]? = some s →
    s.depends_on = some d → futureOf plan i d = some j →
    ∀ ph : Phase α, st.phases[i]? = some ph → ph ≠ Phase.waiting →
      ∃ phj : Phase α, st.phases[j]? = some phj ∧ phj.isTerminal = true

/-- Any resolver invocation in the trace is preceded by the completion of
the invoking step's dependency Future. -/
def InvokeGuard (plan : List ExecutionStep) (st : SchedState α) : Prop :=
  ∀ (i : Nat) (s : ExecutionStep) (d j : Nat), plan[i]? = some s →
    s.depends_on = some d → futureOf plan i d = some j →
    ∀ l₁ l₂ : List Event, st.trace = l₁ ++ Event.invoke i :: l₂ →
      Event.complete j ∈ l₁

/-- Inductive invariant of the scheduler combining the three properties. -/
def SchedInv (plan : List ExecutionStep) (st : SchedState α) : Prop :=
  TraceComplete st ∧ DepGate plan st ∧ InvokeGuard plan st

/-- StepResult published by the parent of a two-step chain whose agent
returns `qrA` (no dependency, hence no context). -/
def chainResA (A : ExecutionStep) (qrA : QueryResult α) : StepResult α :=
  ⟨A.step, A.query, A.route, qrA, none⟩

/-- StepResult published by the dependent step of a two-step chain: its
context is built from the parent's (empty-data) result. -/
def chainResB (B : ExecutionStep) (qrA qrB : QueryResult α) : StepResult α :=
  ⟨B.step, B.query, B.route, qrB, some ("Previous result: " ++ qrA.interpretation)⟩

/-- Reachable states of the two-step chain `[A, B]` when A's agent returns a
result (possibly failed) and B's agent returns a result. -/
def chainOkInv (A B : ExecutionStep) (qrA qrB : QueryResult α)
    (st : SchedState α) : Prop :=
  (st.phases = [Phase.waiting, Phase.waiting] ∧ st.completed = [] ∧ st.trace = [])
  ∨ (st.phases = [Phase.ready, Phase.waiting] ∧ st.completed = [] ∧ st.trace = [])
  ∨ (st.phases = [Phase.running [], Phase.waiting] ∧ st.completed = []
      ∧ st.trace = [Event.invoke 0])
  ∨ (st.phases = [Phase.done (chainResA A qrA), Phase.waiting]
      ∧ st.completed = [(A.step, chainResA A qrA)]
      ∧ st.trace = [Event.invoke 0, Event.complete 0])
  ∨ (st.phases = [Phase.done (chainResA A qrA), Phase.ready]
      ∧ st.completed = [(A.step, chainResA A qrA)]
      ∧ st.trace = [Event.invoke 0, Event.complete 0])
  ∨ (st.phases = [Phase.done (chainResA A qrA),
        Phase.running [(A.step, chainResA A qrA)]]
      ∧ st.completed = [(A.step, chainResA A qrA)]
      ∧ st.trace = [Event.invoke 0, Event.complete 0, Event.invoke 1])
  ∨ (st.phases = [Phase.done (chainResA A qrA), Phase.done (chainResB B qrA qrB)]
      ∧ st.completed = [(B.step, chainResB B qrA qrB), (A.step, chainResA A qrA)]
      ∧ st.trace = [Event.invoke 0, Event.complete 0, Event.invoke 1,
          Event.complete 1])

/-- Reachable states of the two-step chain `[A, B]` when A's agent raises. -/
def chainFailInv (A B : ExecutionStep) (e : String) (st : SchedState α) : Prop :=
  (st.phases = [Phase.waiting, Phase.waiting] ∧ st.completed = [] ∧ st.trace = [])
  ∨ (st.phases = [Phase.ready, Phase.waiting] ∧ st.completed = [] ∧ st.trace = [])
  ∨ (st.phases = [Phase.running [], Phase.waiting] ∧ st.completed = []
      ∧ st.trace = [Event.invoke 0])
  ∨ (st.phases = [Phase.failed e, Phase.waiting] ∧ st.completed = []
      ∧ st.trace = [Event.invoke 0, Event.complete 0])
  ∨ (st.phases = [Phase.failed e, Phase.failed e] ∧ st.completed = []
      ∧ st.trace = [Event.invoke 0, Event.complete 0, Event.complete 1])

/-! ## Concrete environments, plans and inputs used by the claim evaluations -/

/-- Environment in which Cypher generation and every refinement parse to a
non-empty artifact, but every execution against the backing system raises. -/
def envAllExecFail : RagEnv Nat where
  gen := .ok ⟨"MATCH (n) RETURN n", "counts", "list"⟩
  refine := fun _ => .ok ⟨"MATCH (n) RETURN n LIMIT 10", "fixed", "list"⟩
  exec := fun _ _ => .error "Neo4j connection refused"
  interpret := fun _ => "I could not find any results."
  dumps := fun _ => "[]"

/-- Environment in which the artifact executes without error and returns
zero records, and the interpreter answers with its own wording. -/
def envZeroRecords : RagEnv Nat where
  gen := .ok ⟨"MATCH (t:Track) RETURN t", "tracks", "list"⟩
  refine := fun _ => .ok ⟨"MATCH (t:Track) RETURN t", "tracks", "list"⟩
  exec := fun _ _ => .ok []
  interpret := fun _ => "Your listening history contains no matching rows."
  dumps := fun _ => "[]"

/-- Environment for the C8 witness: the planner asks for the same queue
action until two results exist, then signals completion; every tool
execution raises. -/
def envFollowups : SpotEnv where
  planNext := fun results =>
    if results.length < 2 then
      .ok ⟨false, some "add_to_queue", [("track_uri", "spotify:track:abc")], none⟩
    else .ok ⟨true, none, [], none⟩
  callTool := fun _ => .error "Player command failed: no active device"

/-- First tool planned by `envFollowups`. -/
def queueTool : ToolCall := ⟨"add_to_queue", [("track_uri", "spotify:track:abc")], none⟩

/-- Substring test used to state containment (and absence) of markers in
built context strings. -/
def strContains (hay needle : String) : Bool :=
  hay.data.tails.any fun suf => needle.data.isPrefixOf suf

/-- Model of `json.dumps(·, default=str)` on numeric records for the
concrete counterexample run. -/
def dumpsCsv : List Nat → String := fun l =>
  String.intercalate ", " (l.map toString)

/-- Dependent step used in the context-builder counterexample. -/
def depStep : ExecutionStep := ⟨1, "play it", .spotify, some 0, none⟩

/-- Parent StepResult with 25 records. -/
def parentRes25 : StepResult Nat :=
  ⟨0, "top tracks", .graph_rag,
   ⟨true, List.range 25, "Found 25 tracks.", some "MATCH (t:Track) RETURN t"⟩, none⟩

/-- Context string the builder produces for `parentRes25`. -/
def ctx25 : String :=
  "Previous result: Found 25 tracks.\nData (25 total items):\n0, 1, 2, 3, 4, 5, 6, 7, 8, 9"

/-- Two independent steps with always-succeeding agents. -/
def planTwo : List ExecutionStep :=
  [⟨0, "recent tracks", Route.graph_rag, none, none⟩,
   ⟨1, "play something", Route.spotify, none, none⟩]

def envOkAgents : SchedEnv Nat where
  runAgent := fun _ q _ => .ok ⟨true, [3], "did " ++ q, none⟩
  dumps := fun l => String.intercalate ", " (l.map toString)

/-- Single step whose agent raises. -/
def planBoom : List ExecutionStep := [⟨0, "boom", Route.graph_rag, none, none⟩]

def envRaises : SchedEnv Nat where
  runAgent := fun _ q _ =>
    if q = "boom" then .error "ValueError: bad state" else .ok ⟨true, [], "ok", none⟩
  dumps := fun _ => "[]"

/-- Two-step chain used by the temporal witnesses. -/
def planChain : List ExecutionStep :=
  [⟨0, "top artist", Route.graph_rag, none, none⟩,
   ⟨1, "play it", Route.spotify, some 0, none⟩]

/-- Parent step of the witness chains. -/
def stepA : ExecutionStep := ⟨0, "top tracks", Route.graph_rag, none, none⟩

/-- Dependent step of the witness chains. -/
def stepB : ExecutionStep := ⟨1, "play it", Route.spotify, some 0, none⟩

/-- Agents for the C5 witness: the parent resolver reports failure, the
dependent resolver succeeds. -/
def envChainFail : SchedEnv Nat where
  runAgent := fun _ q _ =>
    if q = "top tracks" then .ok ⟨false, [], "Query failed: bad cypher", none⟩
    else .ok ⟨true, [], "queued", none⟩
  dumps := fun _ => "[]"

/-- Agents for the C10 witness: the parent's unit of work raises. -/
def envParentRaises : SchedEnv Nat where
  runAgent := fun _ q _ =>
    if q = "top tracks" then .error "TypeError: NoneType is not iterable"
    else .ok ⟨true, [], "ok", none⟩
  dumps := fun _ => "[]"

/-! ## Basic facts about the refinement automaton -/

theorem refine_query_retry_count (env : RagEnv α) (st : GraphRAGState α) :
    (refine_query env st).retry_count = st.retry_count + 1 := by
  unfold refine_query
  cases env.refine st.retry_count <;> rfl

theorem execute_query_retry_count (env : RagEnv α) (st : GraphRAGState α) (c : Nat) :
    (execute_query env st c).1.retry_count = st.retry_count := by
  unfold execute_query
  split
  · rfl
  · cases env.exec c st.cypher_query <;> rfl

theorem should_refine_iff (st : GraphRAGState α) :
    should_refine st = "refine" ↔ truthyStr st.error = true ∧ st.retry_count < 2 := by
  unfold should_refine
  split <;> rename_i h
  · simp only [Bool.and_eq_true, decide_eq_true_eq] at h
    simp [h]
  · simp only [Bool.and_eq_true, decide_eq_true_eq] at h
    constructor
    · intro hc
      exact absurd hc (by decide)
    · intro hc
      exact absurd hc h

/-! ## Claims about the data resolver's refinement automaton -/

/-- C1: the code, evaluated at an input where refinement attempts are
exhausted and every execution attempt failed, returns a Result with
`success = true` whose interpretation is the interpreter's summary of the
rendered block "No results found." — not `success = false` carrying the last
error as the claim states.  The automaton routes the exhausted failure to
`_interpret_results`, which unconditionally builds a successful result, so
the error-result branch of `GraphRAGAgent.query` is unreachable.  (The
non-exception half of the claim does hold: the failure is returned as a
value, which is what this evaluation exhibits.) -/
theorem exhausted_failure_reports_success_true :
    GraphRAGAgent.query envAllExecFail "what did I play" none
      = ⟨true, [], "I could not find any results.", some "MATCH (n) RETURN n LIMIT 10"⟩
      ∧ (GraphRAGAgent.query envAllExecFail "what did I play" none).success ≠ false := by
  constructor
  · simp [GraphRAGAgent.query, graph_invoke, execute_refine_loop, execute_query,
      generate_cypher, refine_query, interpret_results, should_refine, truthyStr,
      pyStrip, envAllExecFail]
  · simp [GraphRAGAgent.query, graph_invoke, execute_refine_loop, execute_query,
      generate_cypher, refine_query, interpret_results, should_refine, truthyStr,
      pyStrip, envAllExecFail]

/-- C2: when generation and every refinement produce a non-empty artifact
and every execution attempt fails (with a non-empty error text), the
automaton makes exactly `max_attempts + 1 = 3` calls against the backing
system; and the REFINE edge is taken exactly when an error is present after
EXECUTE and the attempt counter is strictly below 2. -/
theorem refinement_bound_three_executions (env : RagEnv α) (q : String)
    (ctx : Option String) (g : GenOut) (hg : env.gen = .ok g) (hgc : g.cypher ≠ "")
    (hr : ∀ k, ∃ gk, env.refine k = .ok gk ∧ gk.cypher ≠ "")
    (he : ∀ n c, ∃ e, env.exec n c = .error e ∧ e ≠ "") :
    (graph_invoke env q ctx).2 = 3 ∧
      (∀ st : GraphRAGState α, should_refine st = "refine" ↔
        truthyStr st.error = true ∧ st.retry_count < 2) := by
  refine ⟨?_, fun st => should_refine_iff st⟩
  obtain ⟨g0, hr0, hc0⟩ := hr 0
  obtain ⟨g1, hr1, hc1⟩ := hr 1
  obtain ⟨e0, he0, hne0⟩ := he 0 g.cypher
  obtain ⟨e1, he1, hne1⟩ := he 1 g0.cypher
  obtain ⟨e2, he2, hne2⟩ := he 2 g1.cypher
  have hne0' : (e0 != "") = true := by simp [hne0]
  have hne1' : (e1 != "") = true := by simp [hne1]
  have hne2' : (e2 != "") = true := by simp [hne2]
  simp [graph_invoke, generate_cypher, hg, execute_refine_loop, execute_query,
    refine_query, should_refine, truthyStr, hgc, hc0, hc1,
    he0, he1, he2, hr0, hr1, hne0', hne1', hne2']

/-- Witness for C2: the hypotheses hold in `envAllExecFail`, and the count
of backing-system calls evaluates to 3 there. -/
theorem refinement_bound_three_executions_witness :
    (graph_invoke envAllExecFail "top artists" none).2 = 3 :=
  (refinement_bound_three_executions envAllExecFail "top artists" none
    ⟨"MATCH (n) RETURN n", "counts", "list"⟩ rfl (by decide)
    (fun _ => ⟨⟨"MATCH (n) RETURN n LIMIT 10", "fixed", "list"⟩, rfl, by decide⟩)
    (fun _ _ => ⟨"Neo4j connection refused", rfl, by decide⟩)).1

/-- C9, counterexample: an artifact that executes without error but returns
zero records does yield `success = true`, but its `interpretation` is the
interpreter LLM's output, not the literal string "No results found." the
claim requires ("No results found." is only the rendered result block fed
into the interpretation prompt). -/
theorem zero_records_interpretation_not_literal :
    (GraphRAGAgent.query envZeroRecords "tracks from 2023" none).success = true
      ∧ (GraphRAGAgent.query envZeroRecords "tracks from 2023" none).interpretation
          ≠ "No results found." := by
  constructor
  · simp [GraphRAGAgent.query, graph_invoke, execute_refine_loop, execute_query,
      generate_cypher, interpret_results, should_refine, truthyStr, pyStrip,
      envZeroRecords]
  · simp [GraphRAGAgent.query, graph_invoke, execute_refine_loop, execute_query,
      generate_cypher, interpret_results, should_refine, truthyStr, pyStrip,
      envZeroRecords]

/-- C9, amended: an artifact that executes without error but returns zero
records yields `success = true` with `data = []`, and the interpretation is
the interpreter's (stripped) answer to the prompt whose result block is
rendered as "No results found.". -/
theorem zero_records_success_amended (env : RagEnv α) (q : String)
    (ctx : Option String) (g : GenOut) (hg : env.gen = .ok g)
    (hgc : g.cypher ≠ "") (hexec : env.exec 0 g.cypher = .ok []) :
    GraphRAGAgent.query env q ctx
      = ⟨true, [],
         pyStrip (env.interpret
           (RESULT_INTERPRETATION_PROMPT_format q g.cypher "No results found.")),
         some g.cypher⟩ := by
  simp [GraphRAGAgent.query, graph_invoke, generate_cypher, hg,
    execute_refine_loop, execute_query, hgc, hexec, should_refine, truthyStr,
    interpret_results]

/-- Witness for the amended C9 at `envZeroRecords`. -/
theorem zero_records_success_amended_witness :
    GraphRAGAgent.query envZeroRecords "tracks from 2023" none
      = ⟨true, [],
         pyStrip (envZeroRecords.interpret
           (RESULT_INTERPRETATION_PROMPT_format "tracks from 2023"
             "MATCH (t:Track) RETURN t" "No results found.")),
         some "MATCH (t:Track) RETURN t"⟩ :=
  zero_records_success_amended envZeroRecords "tracks from 2023" none
    ⟨"MATCH (t:Track) RETURN t", "tracks", "list"⟩ rfl (by decide) rfl

/-! ## Claims about the context builder -/

/-- C7, amended: for a step whose dependency is in the completed results,
the context is the dependency's interpretation, followed — when its data is
non-empty — by the header stating the total record count and the
serialization of exactly the first `min 10 N` records; nothing else (in
particular no omitted-record marker) is appended. -/
theorem context_builder_output_shape (dumps : List α → String)
    (step : ExecutionStep) (completed : List (Nat × StepResult α)) (d : Nat)
    (r : StepResult α) (hdep : step.depends_on = some d)
    (hfound : lookupResult completed d = some r) :
    getContextForStep dumps step completed
      = some (if r.result.data.isEmpty then
           "Previous result: " ++ r.result.interpretation
         else
           "Previous result: " ++ r.result.interpretation ++ "\n"
             ++ "Data (" ++ toString r.result.data.length ++ " total items):"
             ++ "\n" ++ dumps (r.result.data.take 10))
      ∧ (r.result.data.take 10).length = min 10 r.result.data.length := by
  constructor
  · cases hdata : r.result.data.isEmpty with
    | true =>
      simp [getContextForStep, hdep, hfound, hdata, String.intercalate,
        String.intercalate.go]
    | false =>
      simp [getContextForStep, hdep, hfound, hdata, String.intercalate,
        String.intercalate.go, String.append_assoc]
      rw [← String.append_assoc "\n" "Data ("]
      rw [show (("\n" : String) ++ "Data (") = "\nData (" from by decide]
  · simp

/-- C7, counterexample: for a parent result with 25 records the builder's
output does state "25 total" and serializes exactly the first 10 records,
but it contains no "...and 15 more" marker — indeed no occurrence of "more"
or of "15" at all — so the truncation is silent, contrary to the claim. -/
theorem context_builder_no_truncation_marker :
    getContextForStep dumpsCsv depStep [(0, parentRes25)] = some ctx25
      ∧ strContains ctx25 "25 total" = true
      ∧ strContains ctx25 "Found 25 tracks." = true
      ∧ strContains ctx25 "more" = false
      ∧ strContains ctx25 "15" = false := by
  refine ⟨by decide, by decide, by decide, by decide, by decide⟩

/-- Witness for the amended C7 at the concrete 25-record parent. -/
theorem context_builder_output_shape_witness :
    (getContextForStep dumpsCsv depStep [(0, parentRes25)]
      = some (if parentRes25.result.data.isEmpty then
           "Previous result: " ++ parentRes25.result.interpretation
         else
           "Previous result: " ++ parentRes25.result.interpretation ++ "\n"
             ++ "Data (" ++ toString parentRes25.result.data.length ++ " total items):"
             ++ "\n" ++ dumpsCsv (parentRes25.result.data.take 10)))
      ∧ (parentRes25.result.data.take 10).length
          = min 10 parentRes25.result.data.length :=
  context_builder_output_shape dumpsCsv depStep [(0, parentRes25)] 0 parentRes25
    rfl rfl

/-! ## Claims about the action resolver follow-up loop -/

/-! ## Claims about the action resolver's follow-up loop -/
theorem followupLoop_planned_none (env : SpotEnv) (acc : List ToolRes) (fuel : Nat)
    (hp : (plan_next_tool env acc).1 = none) :
    followupLoop env acc (fuel + 1) = acc := by
  unfold followupLoop
  rw [hp]

theorem followupLoop_planned_some (env : SpotEnv) (acc : List ToolRes) (fuel : Nat)
    (t : ToolCall) (hp : (plan_next_tool env acc).1 = some t) :
    followupLoop env acc (fuel + 1)
      = followupLoop env (acc ++ [execute_tool env t]) fuel := by
  conv_lhs => unfold followupLoop
  rw [hp]

theorem followupLoop_length_le (env : SpotEnv) (fuel : Nat) :
    ∀ acc, (followupLoop env acc fuel).length ≤ acc.length + fuel := by
  induction fuel with
  | zero => intro acc; simp [followupLoop]
  | succ n ih =>
    intro acc
    cases hp : (plan_next_tool env acc).1 with
    | none => rw [followupLoop_planned_none env acc n hp]; omega
    | some t =>
      rw [followupLoop_planned_some env acc n t hp]
      have := ih (acc ++ [execute_tool env t])
      simp at this
      omega

theorem followupLoop_early_stop (env : SpotEnv) (fuel : Nat) :
    ∀ acc, (followupLoop env acc fuel).length < acc.length + fuel →
      (plan_next_tool env (followupLoop env acc fuel)).1 = none := by
  induction fuel with
  | zero => intro acc h; simp [followupLoop] at h
  | succ n ih =>
    intro acc h
    cases hp : (plan_next_tool env acc).1 with
    | none => rw [followupLoop_planned_none env acc n hp]; exact hp
    | some t =>
      rw [followupLoop_planned_some env acc n t hp] at h ⊢
      refine ih (acc ++ [execute_tool env t]) ?_
      simp at h ⊢
      omega

/-- C8: the follow-up planning loop appends at most `max_followups = 10`
results; if it stopped before exhausting the cap, it did so only because the
planner returned no further tool (the explicit completion signal); given a
planned tool it always continues into the next iteration with the executed
result appended — independently of that execution's success; and a tool call
whose execution raises is recorded as a failed result rather than halting
anything. -/
theorem followup_loop_cap_and_stop (env : SpotEnv) :
    (∀ acc, (runFollowups env acc).length ≤ acc.length + max_followups)
    ∧ (∀ acc, (runFollowups env acc).length < acc.length + max_followups →
        (plan_next_tool env (runFollowups env acc)).1 = none)
    ∧ (∀ acc t, (plan_next_tool env acc).1 = some t →
        runFollowups env acc
          = followupLoop env (acc ++ [execute_tool env t]) (max_followups - 1))
    ∧ (∀ t e, env.callTool t = .error e →
        execute_tool env t = ⟨t.name, t.arguments, e, false⟩) := by
  refine ⟨fun acc => followupLoop_length_le env max_followups acc,
          fun acc h => followupLoop_early_stop env max_followups acc h,
          fun acc t hp => ?_, fun t e hc => ?_⟩
  · exact followupLoop_planned_some env acc (max_followups - 1) t hp
  · simp [execute_tool, hc]

/-- Witness for C8: in `envFollowups` the loop continues past the first
planned tool even though its execution fails, the failed call is recorded
verbatim, and the run stops on the completion signal before the cap. -/
theorem followup_loop_cap_and_stop_witness :
    (runFollowups envFollowups []
        = followupLoop envFollowups ([] ++ [execute_tool envFollowups queueTool])
            (max_followups - 1))
    ∧ execute_tool envFollowups queueTool
        = ⟨"add_to_queue", [("track_uri", "spotify:track:abc")],
           "Player command failed: no active device", false⟩
    ∧ (plan_next_tool envFollowups (runFollowups envFollowups [])).1 = none :=
  ⟨(followup_loop_cap_and_stop envFollowups).2.2.1 [] queueTool rfl,
   (followup_loop_cap_and_stop envFollowups).2.2.2 queueTool
     "Player command failed: no active device" rfl,
   (followup_loop_cap_and_stop envFollowups).2.1 [] (by decide)⟩

/-! ## Scheduler proofs -/

theorem runSched_induction (env : SchedEnv α) (plan : List ExecutionStep)
    {P : SchedState α → Prop}
    (hstep : ∀ st t, P st → P (stepThread env plan st t)) :
    ∀ (sched : List Nat) (st : SchedState α), P st →
      P (sched.foldl (stepThread env plan) st) := by
  intro sched
  induction sched with
  | nil => intro st h; exact h
  | cons t ts ih => intro st h; exact ih _ (hstep st t h)

theorem futureOf_some_spec (plan : List ExecutionStep) (d : Nat) :
    ∀ upto j, futureOf plan upto d = some j →
      j < upto ∧ ∃ s, plan[j]? = some s ∧ s.step = d := by
  intro upto
  induction upto with
  | zero => intro j h; simp [futureOf] at h
  | succ u ih =>
    intro j h
    unfold futureOf at h
    cases hu : plan[u]? with
    | none =>
      simp only [hu] at h
      obtain ⟨h1, h2⟩ := ih j h
      exact ⟨Nat.lt_succ_of_lt h1, h2⟩
    | some s =>
      simp only [hu] at h
      by_cases hs : s.step = d
      · rw [if_pos hs] at h
        injection h with h
        subst h
        exact ⟨Nat.lt_succ_self u, s, hu, hs⟩
      · rw [if_neg hs] at h
        obtain ⟨h1, h2⟩ := ih j h
        exact ⟨Nat.lt_succ_of_lt h1, h2⟩

theorem futureOf_isSome (plan : List ExecutionStep) (d : Nat) :
    ∀ upto j s, j < upto → plan[j]? = some s → s.step = d →
      (futureOf plan upto d).isSome := by
  intro upto
  induction upto with
  | zero => intro j s h; omega
  | succ u ih =>
    intro j s hj hjs hd
    unfold futureOf
    cases hu : plan[u]? with
    | none =>
      simp only [hu]
      rcases Nat.lt_succ_iff_lt_or_eq.mp hj with h | h
      · exact ih j s h hjs hd
      · subst h; rw [hjs] at hu; cases hu
    | some s' =>
      simp only [hu]
      by_cases hs : s'.step = d
      · simp [hs]
      · rw [if_neg hs]
        rcases Nat.lt_succ_iff_lt_or_eq.mp hj with h | h
        · exact ih j s h hjs hd
        · subst h; rw [hjs] at hu; injection hu with hu; subst hu
          exact absurd hd hs

theorem step_index_unique (plan : List ExecutionStep)
    (hnodup : (plan.map (·.step)).Nodup) (i j : Nat)
    (si sj : ExecutionStep) (hi : plan[i]? = some si) (hj : plan[j]? = some sj)
    (hstep : si.step = sj.step) : i = j := by
  have hil : i < plan.length := by
    by_contra hc
    rw [List.getElem?_eq_none (by omega)] at hi
    cases hi
  have hmi : (plan.map (·.step))[i]? = some si.step := by
    rw [List.getElem?_map, hi]
    rfl
  have hmj : (plan.map (·.step))[j]? = some sj.step := by
    rw [List.getElem?_map, hj]
    rfl
  refine List.getElem?_inj (by simpa using hil) hnodup ?_
  rw [hmi, hmj, hstep]

theorem futureOf_eq_of_nodup (plan : List ExecutionStep)
    (hnodup : (plan.map (·.step)).Nodup) (upto j : Nat) (s : ExecutionStep)
    (hj : plan[j]? = some s) (hjl : j < upto) :
    futureOf plan upto s.step = some j := by
  have h1 := futureOf_isSome plan s.step upto j s hjl hj rfl
  obtain ⟨j', hj'⟩ := Option.isSome_iff_exists.mp h1
  obtain ⟨hlt, s', hs', hstep⟩ := futureOf_some_spec plan s.step upto j' hj'
  have : j' = j := step_index_unique plan hnodup j' j s' s hs' hj hstep
  rw [hj', this]

theorem executeSingleStep_ok (env : SchedEnv α) (s : ExecutionStep)
    (comp : List (Nat × StepResult α)) (r : StepResult α)
    (h : executeSingleStep env s comp = .ok r) :
    r.step = s.step ∧ r.query = s.query ∧ r.route = s.route ∧
      r.context_used = getContextForStep env.dumps s comp ∧
      env.runAgent s.route s.query (getContextForStep env.dumps s comp)
        = .ok r.result := by
  cases ha : env.runAgent s.route s.query (getContextForStep env.dumps s comp) with
  | ok q =>
    simp only [executeSingleStep, ha] at h
    injection h with h
    refine ⟨?_, ?_, ?_, ?_, ?_⟩ <;> rw [← h]
  | error e =>
    simp only [executeSingleStep, ha] at h
    cases h

theorem PhasesOk_set (plan : List ExecutionStep) (phs : List (Phase α))
    (t : Nat) (ph : Phase α) (h : PhasesOk plan phs)
    (hph : ∀ r : StepResult α, ph = Phase.done r →
      ∃ s : ExecutionStep,
        plan[t]? = some s ∧ r.step = s.step ∧ r.query = s.query ∧ r.route = s.route) :
    PhasesOk plan (phs.set t ph) := by
  intro j r hj
  rw [List.getElem?_set] at hj
  by_cases hij : t = j
  · rw [if_pos hij] at hj
    by_cases hlen : t < phs.length
    · rw [if_pos hlen] at hj
      injection hj with hj
      subst hij
      exact hph r hj
    · rw [if_neg hlen] at hj
      cases hj
  · rw [if_neg hij] at hj
    exact h j r hj

theorem stepThread_phasesOk (env : SchedEnv α) (plan : List ExecutionStep)
    (st : SchedState α) (t : Nat) (h : PhasesOk plan st.phases) :
    PhasesOk plan (stepThread env plan st t).phases := by
  unfold stepThread
  repeat' split
  all_goals
    first
      | exact h
      | (apply PhasesOk_set plan st.phases t _ h
         intro r hr
         exact Phase.noConfusion hr)
      | (apply PhasesOk_set plan st.phases t _ h
         intro r' hr'
         rename_i s hpt ph snap hph x r0 hexec
         injection hr' with hr'
         subst hr'
         obtain ⟨h1, h2, h3, _, _⟩ := executeSingleStep_ok env s snap r0 hexec
         exact ⟨s, hpt, h1, h2, h3⟩)

theorem collectResults_map_step (plan : List ExecutionStep) (st : SchedState α)
    (h : PhasesOk plan st.phases) :
    (collectResults plan st).map (·.step) = plan.map (·.step) := by
  unfold collectResults
  rw [List.map_map]
  refine List.map_congr_left ?_
  intro s hs
  simp only [Function.comp]
  cases hfut : futureOf plan plan.length s.step with
  | none => simp [syntheticResult]
  | some j =>
    cases hpj : st.phases[j]? with
    | none => simp [hpj, syntheticResult]
    | some phj =>
      cases phj with
      | done r =>
        obtain ⟨hlt, s', hs', hstep⟩ := futureOf_some_spec plan s.step plan.length j hfut
        obtain ⟨s'', hs'', h1, _, _⟩ := h j r hpj
        rw [hs'] at hs''
        injection hs'' with hs''
        subst hs''
        simp only [hpj]
        rw [h1, hstep]
      | failed e => simp [hpj, syntheticResult]
      | waiting => simp [hpj, syntheticResult]
      | ready => simp [hpj, syntheticResult]
      | running snap => simp [hpj, syntheticResult]

theorem collectResults_failed_mem (plan : List ExecutionStep) (st : SchedState α)
    (hnodup : (plan.map (·.step)).Nodup) (i : Nat) (s : ExecutionStep) (e : String)
    (hi : plan[i]? = some s) (hfail : st.phases[i]? = some (Phase.failed e)) :
    syntheticResult s e ∈ collectResults plan st := by
  have hil : i < plan.length := by
    by_contra hc
    rw [List.getElem?_eq_none (by omega)] at hi
    cases hi
  have hidx : futureOf plan plan.length s.step = some i :=
    futureOf_eq_of_nodup plan hnodup plan.length i s hi hil
  have hmem : s ∈ plan := List.getElem?_mem hi
  unfold collectResults
  refine List.mem_map.mpr ⟨s, hmem, ?_⟩
  simp only [hidx, hfail]

/-- C3: under any interleaving that resolves every Future, the scheduler
returns exactly one StepResult per plan step (the step indices of the output
are a permutation of the plan's) and the output is sorted by step index
ascending, regardless of completion order. -/
theorem runPlan_one_result_per_step_sorted (env : SchedEnv α)
    (plan : List ExecutionStep) (sched : List Nat)
    (hdone : allDone (runSched env plan sched) = true) :
    ((executePlanParallel env plan sched).map (·.step)).Perm (plan.map (·.step))
      ∧ List.Sorted stepLe (executePlanParallel env plan sched) := by
  have hOk : PhasesOk plan (runSched env plan sched).phases := by
    refine runSched_induction env plan
      (fun st t hst => stepThread_phasesOk env plan st t hst) sched
      (initState plan) ?_
    intro j r hj
    simp [initState, List.getElem?_replicate] at hj
  constructor
  · have hperm : (executePlanParallel env plan sched).Perm
        (collectResults plan (runSched env plan sched)) :=
      List.perm_insertionSort stepLe _
    have hmap := hperm.map (·.step)
    rw [collectResults_map_step plan _ hOk] at hmap
    exact hmap
  · exact List.sorted_insertionSort stepLe _

/-- C4: a step whose unit of work raised is replaced in the returned batch
by a synthetic StepResult carrying `success = false`, empty data, the error
text, and no context; the run itself returns a value (no exception escapes
the model of `Run`). -/
theorem scheduler_catches_unit_exception (env : SchedEnv α)
    (plan : List ExecutionStep) (sched : List Nat) (i : Nat) (s : ExecutionStep)
    (e : String) (hnodup : (plan.map (·.step)).Nodup) (hi : plan[i]? = some s)
    (hfail : (runSched env plan sched).phases[i]? = some (Phase.failed e)) :
    syntheticResult s e ∈ executePlanParallel env plan sched
      ∧ (syntheticResult s e : StepResult α).result.success = false
      ∧ (syntheticResult s e : StepResult α).result.data = []
      ∧ (syntheticResult s e : StepResult α).result.interpretation = "Error: " ++ e
      ∧ (syntheticResult s e : StepResult α).context_used = none := by
  refine ⟨?_, rfl, rfl, rfl, rfl⟩
  have hmem := collectResults_failed_mem plan (runSched env plan sched) hnodup i s e
    hi hfail
  exact (List.mem_insertionSort stepLe).mpr hmem

/-- Witness for C3: a schedule on which step 1 finishes before step 0. -/
theorem runPlan_one_result_per_step_sorted_witness :
    ((executePlanParallel envOkAgents planTwo [1, 1, 1, 0, 0, 0]).map (·.step)).Perm
        (planTwo.map (·.step))
      ∧ List.Sorted stepLe (executePlanParallel envOkAgents planTwo [1, 1, 1, 0, 0, 0]) :=
  runPlan_one_result_per_step_sorted envOkAgents planTwo [1, 1, 1, 0, 0, 0] (by decide)

/-- Witness for C4 at a concrete raising step. -/
theorem scheduler_catches_unit_exception_witness :
    syntheticResult ⟨0, "boom", Route.graph_rag, none, none⟩ "ValueError: bad state"
        ∈ executePlanParallel envRaises planBoom [0, 0, 0]
      ∧ (syntheticResult ⟨0, "boom", Route.graph_rag, none, none⟩
          "ValueError: bad state" : StepResult Nat).result.success = false
      ∧ (syntheticResult ⟨0, "boom", Route.graph_rag, none, none⟩
          "ValueError: bad state" : StepResult Nat).result.data = []
      ∧ (syntheticResult ⟨0, "boom", Route.graph_rag, none, none⟩
          "ValueError: bad state" : StepResult Nat).result.interpretation
          = "Error: " ++ "ValueError: bad state"
      ∧ (syntheticResult ⟨0, "boom", Route.graph_rag, none, none⟩
          "ValueError: bad state" : StepResult Nat).context_used = none :=
  scheduler_catches_unit_exception envRaises planBoom [0, 0, 0] 0
    ⟨0, "boom", Route.graph_rag, none, none⟩ "ValueError: bad state"
    (by decide) rfl (by decide)

theorem append_single_eq {γ : Type} (l l₁ l₂ : List γ) (a x : γ)
    (h : l ++ [a] = l₁ ++ x :: l₂) :
    (l₂ = [] ∧ l = l₁ ∧ a = x) ∨ ∃ l₂', l₂ = l₂' ++ [a] ∧ l = l₁ ++ x :: l₂' := by
  rcases List.append_eq_append_iff.mp h with ⟨w, hw1, hw2⟩ | ⟨w, hw1, hw2⟩
  · cases w with
    | nil =>
      rw [List.nil_append] at hw2
      injection hw2 with h1 h2
      have hl : l₁ = l := by rw [hw1, List.append_nil]
      exact Or.inl ⟨h2.symm, hl.symm, h1⟩
    | cons y w' =>
      rw [List.cons_append] at hw2
      injection hw2 with h1 h2
      exact absurd h2.symm (by simp)
  · cases w with
    | nil =>
      rw [List.nil_append] at hw2
      injection hw2 with h1 h2
      have hl : l = l₁ := by rw [hw1, List.append_nil]
      exact Or.inl ⟨h2, hl, h1.symm⟩
    | cons y w' =>
      rw [List.cons_append] at hw2
      injection hw2 with h1 h2
      exact Or.inr ⟨w', h2, by rw [hw1, h1]⟩

theorem stepThread_phases_getElem_ne (env : SchedEnv α) (plan : List ExecutionStep)
    (st : SchedState α) (t j : Nat) (hne : j ≠ t) :
    (stepThread env plan st t).phases[j]? = st.phases[j]? := by
  unfold stepThread
  repeat' split
  all_goals first
    | rfl
    | simp [setPhase, List.getElem?_set_ne (Ne.symm hne)]

theorem stepThread_eq_of_terminal (env : SchedEnv α) (plan : List ExecutionStep)
    (st : SchedState α) (t : Nat) (ph : Phase α) (hph : st.phases[t]? = some ph)
    (hterm : ph.isTerminal = true) : stepThread env plan st t = st := by
  cases ph with
  | done r =>
    unfold stepThread
    cases hpt : plan[t]? <;> simp [hph]
  | failed e =>
    unfold stepThread
    cases hpt : plan[t]? <;> simp [hph]
  | waiting => simp [Phase.isTerminal] at hterm
  | ready => simp [Phase.isTerminal] at hterm
  | running snap => simp [Phase.isTerminal] at hterm

theorem stepThread_preserves_terminal (env : SchedEnv α) (plan : List ExecutionStep)
    (st : SchedState α) (t j : Nat) (ph : Phase α) (hj : st.phases[j]? = some ph)
    (hterm : ph.isTerminal = true) :
    (stepThread env plan st t).phases[j]? = some ph := by
  by_cases hjt : j = t
  · subst hjt
    rw [stepThread_eq_of_terminal env plan st j ph hj hterm]
    exact hj
  · rw [stepThread_phases_getElem_ne env plan st t j hjt]
    exact hj

theorem stepThread_trace_extends (env : SchedEnv α) (plan : List ExecutionStep)
    (st : SchedState α) (t : Nat) :
    ∃ l, (stepThread env plan st t).trace = st.trace ++ l := by
  unfold stepThread
  repeat' split
  all_goals first
    | exact ⟨[Event.complete t], rfl⟩
    | exact ⟨[Event.invoke t], rfl⟩
    | (refine ⟨[], ?_⟩; simp [setPhase])

theorem set_preserve_some (phs : List (Phase α)) (t : Nat) (ph' : Phase α)
    (j : Nat) (phj : Phase α) (hj : phs[j]? = some phj)
    (hne : ∀ ph0, phs[t]? = some ph0 → ph0.isTerminal = false)
    (hterm : phj.isTerminal = true) : (phs.set t ph')[j]? = some phj := by
  by_cases hjt : j = t
  · subst hjt
    rw [hne phj hj] at hterm
    cases hterm
  · rw [List.getElem?_set_ne (Ne.symm hjt)]
    exact hj

theorem schedInv_set_ready (plan : List ExecutionStep) (st : SchedState α)
    (t : Nat) (s : ExecutionStep) (hpt : plan[t]? = some s)
    (hph : st.phases[t]? = some Phase.waiting)
    (hgate : ∀ d j, s.depends_on = some d → futureOf plan t d = some j →
      ∃ phj : Phase α, st.phases[j]? = some phj ∧ phj.isTerminal = true)
    (h : SchedInv plan st) :
    SchedInv plan { st with phases := st.phases.set t Phase.ready } := by
  obtain ⟨hTC, hDG, hIG⟩ := h
  have hwt : ∀ ph0, st.phases[t]? = some ph0 → ph0.isTerminal = false := by
    intro ph0 h0
    rw [hph] at h0
    injection h0 with h0
    rw [← h0]
    rfl
  have hlen : t < st.phases.length := by
    by_contra hc
    rw [List.getElem?_eq_none (by omega)] at hph
    cases hph
  refine ⟨?_, ?_, ?_⟩
  · intro j ph hj hterm
    by_cases hjt : j = t
    · subst hjt
      rw [List.getElem?_set_self hlen] at hj
      injection hj with hj
      rw [← hj] at hterm
      cases hterm
    · rw [List.getElem?_set_ne (Ne.symm hjt)] at hj
      exact hTC j ph hj hterm
  · intro i s' d j hi hdep hfut ph hpi hnw
    by_cases hit : i = t
    · rw [hit] at hi hfut
      rw [hpt] at hi
      injection hi with hi
      subst hi
      obtain ⟨phj, hphj, hphjterm⟩ := hgate d j hdep hfut
      exact ⟨phj, set_preserve_some st.phases t _ j phj hphj hwt hphjterm, hphjterm⟩
    · rw [List.getElem?_set_ne (Ne.symm hit)] at hpi
      obtain ⟨phj, hphj, hphjterm⟩ := hDG i s' d j hi hdep hfut ph hpi hnw
      exact ⟨phj, set_preserve_some st.phases t _ j phj hphj hwt hphjterm, hphjterm⟩
  · intro i s' d j hi hdep hfut l₁ l₂ htr
    exact hIG i s' d j hi hdep hfut l₁ l₂ htr

theorem schedInv_reraise (plan : List ExecutionStep) (st : SchedState α)
    (t : Nat) (s : ExecutionStep) (d0 j0 : Nat) (e : String)
    (hpt : plan[t]? = some s) (hph : st.phases[t]? = some Phase.waiting)
    (hdep : s.depends_on = some d0) (hfut : futureOf plan t d0 = some j0)
    (hpj : st.phases[j0]? = some (Phase.failed e)) (h : SchedInv plan st) :
    SchedInv plan
      { phases := st.phases.set t (Phase.failed e), completed := st.completed,
        trace := st.trace ++ [Event.complete t] } := by
  obtain ⟨hTC, hDG, hIG⟩ := h
  have hwt : ∀ ph0, st.phases[t]? = some ph0 → ph0.isTerminal = false := by
    intro ph0 h0
    rw [hph] at h0
    injection h0 with h0
    rw [← h0]
    rfl
  have hlen : t < st.phases.length := by
    by_contra hc
    rw [List.getElem?_eq_none (by omega)] at hph
    cases hph
  refine ⟨?_, ?_, ?_⟩
  · intro j ph hj hterm
    by_cases hjt : j = t
    · subst hjt
      exact List.mem_append_right _ (by simp)
    · rw [List.getElem?_set_ne (Ne.symm hjt)] at hj
      exact List.mem_append_left _ (hTC j ph hj hterm)
  · intro i s' d j hi hdep' hfut' ph hpi hnw
    by_cases hit : i = t
    · rw [hit] at hi hfut'
      rw [hpt] at hi
      injection hi with hi
      subst hi
      rw [hdep] at hdep'
      injection hdep' with hdep'
      subst hdep'
      rw [hfut] at hfut'
      injection hfut' with hfut'
      subst hfut'
      exact ⟨Phase.failed e,
        set_preserve_some st.phases t _ j0 (Phase.failed e) hpj hwt rfl, rfl⟩
    · rw [List.getElem?_set_ne (Ne.symm hit)] at hpi
      obtain ⟨phj, hphj, hphjterm⟩ := hDG i s' d j hi hdep' hfut' ph hpi hnw
      exact ⟨phj, set_preserve_some st.phases t _ j phj hphj hwt hphjterm, hphjterm⟩
  · intro i s' d j hi hdep' hfut' l₁ l₂ htr
    rcases append_single_eq st.trace l₁ l₂ (Event.complete t) (Event.invoke i) htr with
      ⟨h1, h2, h3⟩ | ⟨l₂', hl2, htr'⟩
    · cases h3
    · exact hIG i s' d j hi hdep' hfut' l₁ l₂' htr'

theorem schedInv_invoke (plan : List ExecutionStep) (st : SchedState α)
    (t : Nat) (s : ExecutionStep) (hpt : plan[t]? = some s)
    (hph : st.phases[t]? = some Phase.ready) (h : SchedInv plan st) :
    SchedInv plan
      { phases := st.phases.set t (Phase.running st.completed),
        completed := st.completed, trace := st.trace ++ [Event.invoke t] } := by
  obtain ⟨hTC, hDG, hIG⟩ := h
  have hwt : ∀ ph0, st.phases[t]? = some ph0 → ph0.isTerminal = false := by
    intro ph0 h0
    rw [hph] at h0
    injection h0 with h0
    rw [← h0]
    rfl
  have hlen : t < st.phases.length := by
    by_contra hc
    rw [List.getElem?_eq_none (by omega)] at hph
    cases hph
  refine ⟨?_, ?_, ?_⟩
  · intro j ph hj hterm
    by_cases hjt : j = t
    · subst hjt
      rw [List.getElem?_set_self hlen] at hj
      injection hj with hj
      rw [← hj] at hterm
      cases hterm
    · rw [List.getElem?_set_ne (Ne.symm hjt)] at hj
      exact List.mem_append_left _ (hTC j ph hj hterm)
  · intro i s' d j hi hdep' hfut' ph hpi hnw
    by_cases hit : i = t
    · rw [hit] at hi hfut'
      rw [hpt] at hi
      injection hi with hi
      subst hi
      obtain ⟨phj, hphj, hphjterm⟩ :=
        hDG t s d j hpt hdep' hfut' Phase.ready hph (by intro hc; cases hc)
      exact ⟨phj, set_preserve_some st.phases t _ j phj hphj hwt hphjterm, hphjterm⟩
    · rw [List.getElem?_set_ne (Ne.symm hit)] at hpi
      obtain ⟨phj, hphj, hphjterm⟩ := hDG i s' d j hi hdep' hfut' ph hpi hnw
      exact ⟨phj, set_preserve_some st.phases t _ j phj hphj hwt hphjterm, hphjterm⟩
  · intro i s' d j hi hdep' hfut' l₁ l₂ htr
    rcases append_single_eq st.trace l₁ l₂ (Event.invoke t) (Event.invoke i) htr with
      ⟨h1, h2, h3⟩ | ⟨l₂', hl2, htr'⟩
    · injection h3 with h3
      subst h3
      obtain ⟨phj, hphj, hphjterm⟩ :=
        hDG t s' d j hi hdep' hfut' Phase.ready hph (fun hc => Phase.noConfusion hc)
      rw [← h2]
      exact hTC j phj hphj hphjterm
    · exact hIG i s' d j hi hdep' hfut' l₁ l₂' htr'

theorem schedInv_publish (plan : List ExecutionStep) (st : SchedState α)
    (t : Nat) (snap : List (Nat × StepResult α)) (ph' : Phase α)
    (hterm' : ph'.isTerminal = true)
    (hph : st.phases[t]? = some (Phase.running snap))
    (comp' : List (Nat × StepResult α)) (h : SchedInv plan st) :
    SchedInv plan
      { phases := st.phases.set t ph', completed := comp',
        trace := st.trace ++ [Event.complete t] } := by
  obtain ⟨hTC, hDG, hIG⟩ := h
  have hwt : ∀ ph0, st.phases[t]? = some ph0 → ph0.isTerminal = false := by
    intro ph0 h0
    rw [hph] at h0
    injection h0 with h0
    rw [← h0]
    rfl
  refine ⟨?_, ?_, ?_⟩
  · intro j ph hj hterm
    by_cases hjt : j = t
    · subst hjt
      exact List.mem_append_right _ (by simp)
    · rw [List.getElem?_set_ne (Ne.symm hjt)] at hj
      exact List.mem_append_left _ (hTC j ph hj hterm)
  · intro i s' d j hi hdep' hfut' ph hpi hnw
    by_cases hit : i = t
    · rw [hit] at hi hfut'
      obtain ⟨phj, hphj, hphjterm⟩ :=
        hDG t s' d j hi hdep' hfut' (Phase.running snap) hph
          (fun hc => Phase.noConfusion hc)
      exact ⟨phj, set_preserve_some st.phases t _ j phj hphj hwt hphjterm, hphjterm⟩
    · rw [List.getElem?_set_ne (Ne.symm hit)] at hpi
      obtain ⟨phj, hphj, hphjterm⟩ := hDG i s' d j hi hdep' hfut' ph hpi hnw
      exact ⟨phj, set_preserve_some st.phases t _ j phj hphj hwt hphjterm, hphjterm⟩
  · intro i s' d j hi hdep' hfut' l₁ l₂ htr
    rcases append_single_eq st.trace l₁ l₂ (Event.complete t) (Event.invoke i) htr with
      ⟨h1, h2, h3⟩ | ⟨l₂', hl2, htr'⟩
    · cases h3
    · exact hIG i s' d j hi hdep' hfut' l₁ l₂' htr'

theorem stepThread_schedInv (env : SchedEnv α) (plan : List ExecutionStep)
    (st : SchedState α) (t : Nat) (h : SchedInv plan st) :
    SchedInv plan (stepThread env plan st t) := by
  unfold stepThread
  split
  next s ph hpt hph =>
    split
    next =>
      split
      next hdep =>
        refine schedInv_set_ready plan st t s hpt hph ?_ h
        intro d j hdep' hfut'
        rw [hdep] at hdep'
        cases hdep'
      next d0 hdep =>
        split
        next hfut =>
          refine schedInv_set_ready plan st t s hpt hph ?_ h
          intro d j hdep' hfut'
          rw [hdep] at hdep'
          injection hdep' with hdep'
          subst hdep'
          rw [hfut] at hfut'
          cases hfut'
        next j0 hfut =>
          split
          next r0 hpj =>
            refine schedInv_set_ready plan st t s hpt hph ?_ h
            intro d j hdep' hfut'
            rw [hdep] at hdep'
            injection hdep' with hdep'
            subst hdep'
            rw [hfut] at hfut'
            injection hfut' with hfut'
            subst hfut'
            exact ⟨Phase.done r0, hpj, rfl⟩
          next e0 hpj =>
            exact schedInv_reraise plan st t s d0 j0 e0 hpt hph hdep hfut hpj h
          next hcatch =>
            exact h
    next =>
      exact schedInv_invoke plan st t s hpt hph h
    next snap =>
      split
      next r0 hexec =>
        exact schedInv_publish plan st t snap (Phase.done r0) rfl hph _ h
      next e0 hexec =>
        exact schedInv_publish plan st t snap (Phase.failed e0) rfl hph _ h
    next r => exact h
    next e => exact h
  next => exact h

/-- C6: for a plan with unique step ids where a step's declared parent has a
strictly smaller position in the plan, under any interleaving the dependent
step's resolver invocation appears in the trace only after the parent's
completion event: the parent's Future resolved (by value or exception)
before the dependent began executing its resolver logic. -/
theorem no_invoke_before_parent_complete (env : SchedEnv α)
    (plan : List ExecutionStep) (sched : List Nat)
    (hnodup : (plan.map (·.step)).Nodup)
    (i : Nat) (si : ExecutionStep) (d j : Nat) (sj : ExecutionStep)
    (hi : plan[i]? = some si) (hd : si.depends_on = some d)
    (hj : plan[j]? = some sj) (hjd : sj.step = d) (hji : j < i)
    (l₁ l₂ : List Event)
    (htrace : (runSched env plan sched).trace = l₁ ++ Event.invoke i :: l₂) :
    Event.complete j ∈ l₁ := by
  have hfut : futureOf plan i d = some j := by
    have hf := futureOf_eq_of_nodup plan hnodup i j sj hj hji
    rw [hjd] at hf
    exact hf
  have hinv : SchedInv plan (runSched env plan sched) := by
    refine runSched_induction env plan
      (fun st t hst => stepThread_schedInv env plan st t hst) sched
      (initState plan) ?_
    refine ⟨?_, ?_, ?_⟩
    · intro j' ph hj' hterm
      simp only [initState, List.getElem?_replicate] at hj'
      split at hj'
      · injection hj' with hj'
        rw [← hj'] at hterm
        cases hterm
      · cases hj'
    · intro i' s' d' j' hi' hdep' hfut' ph hpi hnw
      simp only [initState, List.getElem?_replicate] at hpi
      split at hpi
      · injection hpi with hpi
        exact absurd hpi.symm hnw
      · cases hpi
    · intro i' s' d' j' hi' hdep' hfut' l₁' l₂' htr
      simp only [initState] at htr
      cases l₁' with
      | nil => cases htr
      | cons x xs => cases htr
  exact hinv.2.2 i si d j hi hd hfut l₁ l₂ htrace

/-- Witness for C6 on a schedule that drives the chain to completion: the
dependent step's invocation is preceded by the parent's completion. -/
theorem no_invoke_before_parent_complete_witness :
    Event.complete 0 ∈ [Event.invoke 0, Event.complete 0] :=
  no_invoke_before_parent_complete envOkAgents planChain [0, 0, 0, 1, 1, 1]
    (by decide) 1 ⟨1, "play it", Route.spotify, some 0, none⟩ 0 0
    ⟨0, "top artist", Route.graph_rag, none, none⟩ rfl rfl rfl rfl
    (by decide) [Event.invoke 0, Event.complete 0] [Event.complete 1] (by decide)

theorem chainOk_step (env : SchedEnv α) (A B : ExecutionStep)
    (qrA qrB : QueryResult α)
    (hA0 : A.depends_on = none) (hdep : B.depends_on = some A.step)
    (hdataA : qrA.data = [])
    (hqA : env.runAgent A.route A.query none = .ok qrA)
    (hqB : env.runAgent B.route B.query
      (some ("Previous result: " ++ qrA.interpretation)) = .ok qrB)
    (st : SchedState α) (t : Nat) (h : chainOkInv A B qrA qrB st) :
    chainOkInv A B qrA qrB (stepThread env [A, B] st t) := by
  rcases h with ⟨h1, h2, h3⟩ | ⟨h1, h2, h3⟩ | ⟨h1, h2, h3⟩ | ⟨h1, h2, h3⟩
    | ⟨h1, h2, h3⟩ | ⟨h1, h2, h3⟩ | ⟨h1, h2, h3⟩ <;>
    rcases t with _ | _ | n <;>
    simp [chainOkInv, stepThread, setPhase, h1, h2, h3, hA0, hdep, hdataA,
      hqA, hqB, executeSingleStep, getContextForStep, lookupResult, futureOf,
      chainResA, chainResB, String.intercalate, String.intercalate.go]

/-- C5: in a two-step chain where the parent's resolver reports failure
(`success = false`, empty data) by returning normally, the dependent step is
not skipped: its resolver is invoked (the trace records `invoke 1` after the
parent completed), and its published StepResult carries a context built from
the parent's failed result — the parent's failure interpretation. -/
theorem dependent_executes_after_parent_failure (env : SchedEnv α)
    (A B : ExecutionStep) (qrA qrB : QueryResult α) (sched : List Nat)
    (hA0 : A.depends_on = none) (hdep : B.depends_on = some A.step)
    (hfailA : qrA.success = false) (hdataA : qrA.data = [])
    (hqA : env.runAgent A.route A.query none = .ok qrA)
    (hqB : env.runAgent B.route B.query
      (some ("Previous result: " ++ qrA.interpretation)) = .ok qrB)
    (hdone : allDone (runSched env [A, B] sched) = true) :
    (runSched env [A, B] sched).trace
        = [Event.invoke 0, Event.complete 0, Event.invoke 1, Event.complete 1]
      ∧ chainResB B qrA qrB ∈ executePlanParallel env [A, B] sched := by
  have hinv : chainOkInv A B qrA qrB (runSched env [A, B] sched) := by
    refine runSched_induction env [A, B]
      (fun st t hst => chainOk_step env A B qrA qrB hA0 hdep hdataA hqA hqB st t hst)
      sched (initState [A, B]) ?_
    exact Or.inl ⟨rfl, rfl, rfl⟩
  rcases hinv with ⟨h1, h2, h3⟩ | ⟨h1, h2, h3⟩ | ⟨h1, h2, h3⟩ | ⟨h1, h2, h3⟩
    | ⟨h1, h2, h3⟩ | ⟨h1, h2, h3⟩ | ⟨h1, h2, h3⟩ <;>
    first
    | (refine ⟨h3, ?_⟩
       have hcoll : (collectResults [A, B] (runSched env [A, B] sched))[1]?
           = some (chainResB B qrA qrB) := by
         unfold collectResults
         simp [h1, futureOf]
       exact (List.mem_insertionSort stepLe).mpr (List.getElem?_mem hcoll))
    | (simp [allDone, h1, Phase.isTerminal] at hdone)

/-- Witness for C5 on a schedule driving the chain to completion. -/
theorem dependent_executes_after_parent_failure_witness :
    (runSched envChainFail [stepA, stepB] [0, 0, 0, 1, 1, 1]).trace
        = [Event.invoke 0, Event.complete 0, Event.invoke 1, Event.complete 1]
      ∧ chainResB stepB ⟨false, [], "Query failed: bad cypher", none⟩
          ⟨true, [], "queued", none⟩
          ∈ executePlanParallel envChainFail [stepA, stepB] [0, 0, 0, 1, 1, 1] :=
  dependent_executes_after_parent_failure envChainFail stepA stepB
    ⟨false, [], "Query failed: bad cypher", none⟩ ⟨true, [], "queued", none⟩
    [0, 0, 0, 1, 1, 1] rfl rfl rfl rfl rfl rfl (by decide)

theorem chainFail_step (env : SchedEnv α) (A B : ExecutionStep) (e : String)
    (hA0 : A.depends_on = none) (hdep : B.depends_on = some A.step)
    (hqA : env.runAgent A.route A.query none = .error e)
    (st : SchedState α) (t : Nat) (h : chainFailInv A B e st) :
    chainFailInv A B e (stepThread env [A, B] st t) := by
  rcases h with ⟨h1, h2, h3⟩ | ⟨h1, h2, h3⟩ | ⟨h1, h2, h3⟩ | ⟨h1, h2, h3⟩
    | ⟨h1, h2, h3⟩ <;>
    rcases t with _ | _ | n <;>
    simp [chainFailInv, stepThread, setPhase, h1, h2, h3, hA0, hdep, hqA,
      executeSingleStep, getContextForStep, futureOf]

/-- C10: in a two-step chain whose parent's unit of work raises (rather than
returning a failed result), the dependent step's resolver is never invoked:
the dependency wait re-raises the parent's exception, and the dependent step
is replaced by a synthetic failed StepResult carrying the parent's error
text and no context. -/
theorem parent_exception_skips_dependent (env : SchedEnv α)
    (A B : ExecutionStep) (e : String) (sched : List Nat)
    (hA0 : A.depends_on = none) (hdep : B.depends_on = some A.step)
    (hqA : env.runAgent A.route A.query none = .error e)
    (hdone : allDone (runSched env [A, B] sched) = true) :
    Event.invoke 1 ∉ (runSched env [A, B] sched).trace
      ∧ (runSched env [A, B] sched).phases[1]? = some (Phase.failed e)
      ∧ (⟨B.step, B.query, B.route, ⟨false, [], "Error: " ++ e, none⟩,
           none⟩ : StepResult α) ∈ executePlanParallel env [A, B] sched := by
  have hinv : chainFailInv A B e (runSched env [A, B] sched) := by
    refine runSched_induction env [A, B]
      (fun st t hst => chainFail_step env A B e hA0 hdep hqA st t hst)
      sched (initState [A, B]) ?_
    exact Or.inl ⟨rfl, rfl, rfl⟩
  rcases hinv with ⟨h1, h2, h3⟩ | ⟨h1, h2, h3⟩ | ⟨h1, h2, h3⟩ | ⟨h1, h2, h3⟩
    | ⟨h1, h2, h3⟩ <;>
    first
    | (refine ⟨?_, ?_, ?_⟩
       · simp [h3]
       · simp [h1]
       · have hcoll : (collectResults [A, B] (runSched env [A, B] sched))[1]?
             = some (syntheticResult B e) := by
           unfold collectResults
           simp [h1, futureOf]
         refine (List.mem_insertionSort stepLe).mpr ?_
         have hmem := List.getElem?_mem hcoll
         simpa [syntheticResult] using hmem)
    | (simp [allDone, h1, Phase.isTerminal] at hdone)

/-- Witness for C10: the dependent step is never invoked and is replaced by
a synthetic failed StepResult carrying the parent's exception text. -/
theorem parent_exception_skips_dependent_witness :
    Event.invoke 1 ∉ (runSched envParentRaises [stepA, stepB] [0, 0, 0, 1]).trace
      ∧ (runSched envParentRaises [stepA, stepB] [0, 0, 0, 1]).phases[1]?
          = some (Phase.failed "TypeError: NoneType is not iterable")
      ∧ (⟨stepB.step, stepB.query, stepB.route,
           ⟨false, [], "Error: " ++ "TypeError: NoneType is not iterable", none⟩,
           none⟩ : StepResult Nat)
          ∈ executePlanParallel envParentRaises [stepA, stepB] [0, 0, 0, 1] :=
  parent_exception_skips_dependent envParentRaises stepA stepB
    "TypeError: NoneType is not iterable" [0, 0, 0, 1] rfl rfl rfl (by decide)

end SpotifyProject
